import Mathlib

/-!
Verification of the capability-negotiation core
(crates/net/eth-wire/src/capability.rs).

The data model and operations below are a shallow embedding of the Rust
source.  `EthVersion`, `ParseVersionError` and the binary codec live in
sibling crates of the repository that are not part of this extract; they
are modelled from the specification and marked as such in their doc
comments.  Machine integers (u8, usize) are modelled as `Nat`; byte
ranges are stated as explicit hypotheses where a claim quantifies over
bytes.  Fallible operations return `Except`/`Option`.
-/

/-- Modelled from the spec: `ParseVersionError` (crate::version, not in the
extract) is the version-parse failure that identifies the unsupported
version value. -/
structure ParseVersionError where
  version : Nat
deriving DecidableEq

/-- Modelled from the spec: `EthVersion` (crate::version, not in the
extract) is the fixed, ordered enumeration of supported primary-protocol
versions; the two specially recognized versions are 66 and 67. -/
inductive EthVersion where
  | Eth66
  | Eth67
deriving DecidableEq

/-- Modelled from the spec: the numeric value of an `EthVersion`
(the Rust enum has discriminants 66 and 67, read back via `as u8`). -/
def EthVersion.toNat : EthVersion → Nat
  | .Eth66 => 66
  | .Eth67 => 67

/-- Modelled from the spec: `EthVersion::try_from(u8)` maps a version byte
into the supported enumeration and otherwise fails with a version-parse
error identifying the unsupported value. -/
def EthVersion.tryFrom (v : Nat) : Except ParseVersionError EthVersion :=
  if v = 66 then Except.ok EthVersion.Eth66
  else if v = 67 then Except.ok EthVersion.Eth67
  else Except.error { version := v }

/-- Modelled from the spec: the static table keyed by validated version
giving the fixed message-count of the primary protocol. -/
def EthVersion.total_messages : EthVersion → Nat
  | .Eth66 => 13
  | .Eth67 => 13

/-- A message indicating a supported capability and capability version
(struct `Capability` in capability.rs: a name and a version). -/
structure Capability where
  name : String
  version : Nat
deriving DecidableEq

/-- Capability::new: creates a new `Capability` with the given name and
version, verbatim, with no validation. -/
def Capability.new (name : String) (version : Nat) : Capability :=
  { name := name, version := version }

/-- Capability::is_eth_v66: whether this is the eth v66 protocol. -/
def Capability.is_eth_v66 (c : Capability) : Bool :=
  c.name == "eth" && c.version == 66

/-- Capability::is_eth_v67: whether this is eth v67. -/
def Capability.is_eth_v67 (c : Capability) : Bool :=
  c.name == "eth" && c.version == 67

/-- Capabilities: all capabilities of a node, with the two cached flags. -/
structure Capabilities where
  inner : List Capability
  eth_66 : Bool
  eth_67 : Bool
deriving DecidableEq

/-- From\<Vec\<Capability\>\> for Capabilities: derives the two cached
flags by scanning the list once. -/
def Capabilities.fromList (value : List Capability) : Capabilities :=
  { eth_66 := value.any Capability.is_eth_v66
    eth_67 := value.any Capability.is_eth_v67
    inner := value }

/-- Capabilities::capabilities: returns all capabilities. -/
def Capabilities.capabilities (c : Capabilities) : List Capability :=
  c.inner

/-- Capabilities::into_inner: consumes the type and returns all
capabilities. -/
def Capabilities.into_inner (c : Capabilities) : List Capability :=
  c.inner

/-- Capabilities::supports_eth: whether the peer supports the eth
sub-protocol. -/
def Capabilities.supports_eth (c : Capabilities) : Bool :=
  c.eth_67 || c.eth_66

/-- Capabilities::supports_eth_v66: whether this peer supports eth v66. -/
def Capabilities.supports_eth_v66 (c : Capabilities) : Bool :=
  c.eth_66

/-- Capabilities::supports_eth_v67: whether this peer supports eth v67. -/
def Capabilities.supports_eth_v67 (c : Capabilities) : Bool :=
  c.eth_67

/-- SharedCapability: a shared capability, its version, and its offset;
either the eth capability or an unknown capability. -/
inductive SharedCapability where
  | Eth (version : EthVersion) (offset : Nat)
  | UnknownCapability (name : String) (version : Nat) (offset : Nat)
deriving DecidableEq

/-- SharedCapabilityError: an error that may occur while creating a
SharedCapability: an unsupported eth version, or an unknown capability
whose message count cannot be determined. -/
inductive SharedCapabilityError where
  | UnsupportedVersion (e : ParseVersionError)
  | UnknownCapability
deriving DecidableEq

/-- SharedCapability::new: creates a new SharedCapability based on the
given name, version and offset; for name "eth" the version byte is
validated through the supported enumeration, any other name succeeds
verbatim as an unknown capability. -/
def SharedCapability.new (name : String) (version offset : Nat) :
    Except SharedCapabilityError SharedCapability :=
  if name = "eth" then
    match EthVersion.tryFrom version with
    | Except.ok v => Except.ok (SharedCapability.Eth v offset)
    | Except.error e => Except.error (SharedCapabilityError.UnsupportedVersion e)
  else
    Except.ok (SharedCapability.UnknownCapability name version offset)

/-- SharedCapability::name: returns the name of the capability. -/
def SharedCapability.name : SharedCapability → String
  | .Eth _ _ => "eth"
  | .UnknownCapability n _ _ => n

/-- SharedCapability::version: returns the version of the capability. -/
def SharedCapability.version : SharedCapability → Nat
  | .Eth v _ => v.toNat
  | .UnknownCapability _ v _ => v

/-- SharedCapability::offset: returns the message ID offset. -/
def SharedCapability.offset : SharedCapability → Nat
  | .Eth _ o => o
  | .UnknownCapability _ _ o => o

/-- SharedCapability::num_messages: the number of protocol messages
supported by this capability; defined only for the eth shape. -/
def SharedCapability.num_messages :
    SharedCapability → Except SharedCapabilityError Nat
  | .Eth v _ => Except.ok v.total_messages
  | .UnknownCapability _ _ _ => Except.error SharedCapabilityError.UnknownCapability

/-- Modelled from the spec: the transport encoding of one unsigned
integer as a variable-length, self-delimiting byte sequence (seven value
bits per byte, the high bit marking continuation). -/
def lebEnc (n : Nat) : List Nat :=
  if n < 128 then [n]
  else (n % 128 + 128) :: lebEnc (n / 128)
decreasing_by exact Nat.div_lt_self (by omega) (by omega)

/-- Modelled from the spec: decoding of one variable-length unsigned
integer, returning the value and the remaining buffer. -/
def lebDec : List Nat → Option (Nat × List Nat)
  | [] => none
  | b :: rest =>
    if b < 128 then some (b, rest)
    else
      match lebDec rest with
      | some (m, r) => some (m * 128 + (b - 128), r)
      | none => none

/-- Modelled from the spec: encoding of a sequence of characters, each as
one variable-length unsigned integer. -/
def encChars : List Char → List Nat
  | [] => []
  | c :: cs => lebEnc c.toNat ++ encChars cs

/-- Modelled from the spec: decoding of a counted sequence of characters. -/
def decChars : Nat → List Nat → Option (List Char × List Nat)
  | 0, buf => some ([], buf)
  | k + 1, buf =>
    match lebDec buf with
    | some (n, r) =>
      match decChars k r with
      | some (cs, r2) => some (Char.ofNat n :: cs, r2)
      | none => none
    | none => none

/-- Modelled from the spec: the transport encoding of a variable-length
string, a character count followed by the characters. -/
def encStr (s : String) : List Nat :=
  lebEnc s.data.length ++ encChars s.data

/-- Modelled from the spec: decoding of one variable-length string. -/
def decStr (buf : List Nat) : Option (String × List Nat) :=
  match lebDec buf with
  | some (n, r) =>
    match decChars n r with
    | some (cs, r2) => some (String.mk cs, r2)
    | none => none
  | none => none

/-- Encoding of one Capability record, modelled from the spec: a
two-element structured record, the name then the version. -/
def encCap (c : Capability) : List Nat :=
  encStr c.name ++ lebEnc c.version

/-- Decoding of one Capability record, modelled from the spec. -/
def decCap (buf : List Nat) : Option (Capability × List Nat) :=
  match decStr buf with
  | some (n, r) =>
    match lebDec r with
    | some (v, r2) => some ({ name := n, version := v }, r2)
    | none => none
  | none => none

/-- Modelled from the spec: concatenated encoding of capability records. -/
def encCapList : List Capability → List Nat
  | [] => []
  | c :: cs => encCap c ++ encCapList cs

/-- Modelled from the spec: decoding of a counted sequence of capability
records. -/
def decCapList : Nat → List Nat → Option (List Capability × List Nat)
  | 0, buf => some ([], buf)
  | k + 1, buf =>
    match decCap buf with
    | some (c, r) =>
      match decCapList k r with
      | some (cs, r2) => some (c :: cs, r2)
      | none => none
    | none => none

/-- Encodable for Capabilities: encodes the inner list (the record
sequence itself is modelled from the spec as a length-prefixed sequence
of capability records). -/
def Capabilities.encode (c : Capabilities) : List Nat :=
  lebEnc c.inner.length ++ encCapList c.inner

/-- Decodable for Capabilities: decodes the inner list and re-derives the
two cached flags from the decoded sequence. -/
def Capabilities.decode (buf : List Nat) : Option (Capabilities × List Nat) :=
  match lebDec buf with
  | some (n, r) =>
    match decCapList n r with
    | some (inner, r2) =>
      some ({ eth_66 := inner.any Capability.is_eth_v66
              eth_67 := inner.any Capability.is_eth_v67
              inner := inner }, r2)
    | none => none
  | none => none

theorem lebDec_lebEnc (n : Nat) :
    ∀ rest, lebDec (lebEnc n ++ rest) = some (n, rest) := by
  induction n using Nat.strong_induction_on with
  | _ n ih =>
    intro rest
    rw [lebEnc]
    split
    · simp [lebDec, *]
    · have hdiv : n / 128 < n := Nat.div_lt_self (by omega) (by omega)
      simp only [List.cons_append, lebDec, List.append_eq]
      rw [if_neg (by omega), ih (n / 128) hdiv rest]
      simp only [Option.some.injEq, Prod.mk.injEq]
      exact ⟨by omega, trivial⟩

theorem decChars_encChars (cs : List Char) :
    ∀ rest, decChars cs.length (encChars cs ++ rest) = some (cs, rest) := by
  induction cs with
  | nil => intro rest; simp [encChars, decChars]
  | cons c cs ih =>
    intro rest
    simp only [List.length_cons, encChars, List.append_assoc, decChars,
      lebDec_lebEnc, ih, Char.ofNat_toNat]

theorem decStr_encStr (s : String) (rest : List Nat) :
    decStr (encStr s ++ rest) = some (s, rest) := by
  have h := decChars_encChars s.data rest
  simp only [decStr, encStr, List.append_assoc, lebDec_lebEnc]
  rw [h]

theorem decCap_encCap (c : Capability) (rest : List Nat) :
    decCap (encCap c ++ rest) = some (c, rest) := by
  simp [decCap, encCap, List.append_assoc, decStr_encStr, lebDec_lebEnc]

theorem decCapList_encCapList (cs : List Capability) :
    ∀ rest, decCapList cs.length (encCapList cs ++ rest) = some (cs, rest) := by
  induction cs with
  | nil => intro rest; simp [encCapList, decCapList]
  | cons c cs ih =>
    intro rest
    simp only [List.length_cons, encCapList, List.append_assoc, decCapList,
      decCap_encCap, ih]

/-- C1: SharedCapability::new with name "eth" returns Ok with the Eth
shape holding the validated version and the given offset exactly when the
version byte maps into the supported enumeration, and otherwise fails
with the UnsupportedVersion kind identifying the unsupported value; in
particular new "eth" 9 0 fails with that kind. -/
theorem eth_new_validates_version (v o : Nat) (hv : v ≤ 255) (ho : o ≤ 255) :
    ((∃ ev, EthVersion.tryFrom v = Except.ok ev ∧
        SharedCapability.new "eth" v o = Except.ok (SharedCapability.Eth ev o)) ↔
      (v = 66 ∨ v = 67)) ∧
    (¬(v = 66 ∨ v = 67) →
      SharedCapability.new "eth" v o =
        Except.error (SharedCapabilityError.UnsupportedVersion { version := v })) ∧
    SharedCapability.new "eth" 9 0 =
      Except.error (SharedCapabilityError.UnsupportedVersion { version := 9 }) := by
  refine ⟨⟨?_, ?_⟩, ?_, rfl⟩
  · rintro ⟨ev, hok, _⟩
    unfold EthVersion.tryFrom at hok
    split_ifs at hok with h1 h2
    · exact Or.inl h1
    · exact Or.inr h2
  · rintro (rfl | rfl)
    · exact ⟨EthVersion.Eth66, rfl, rfl⟩
    · exact ⟨EthVersion.Eth67, rfl, rfl⟩
  · intro h
    push_neg at h
    simp [SharedCapability.new, EthVersion.tryFrom, h.1, h.2]

/-- Witness for C1 at version 9, offset 0. -/
theorem eth_new_validates_version_witness :
    (9 ≤ 255 ∧ 0 ≤ 255) ∧
    SharedCapability.new "eth" 9 0 =
      Except.error (SharedCapabilityError.UnsupportedVersion { version := 9 }) :=
  ⟨⟨by omega, by omega⟩,
    (eth_new_validates_version 9 0 (by omega) (by omega)).2.2⟩

/-- C2: for every name other than "eth", SharedCapability::new always
succeeds with the unknown-capability shape carrying name, version and
offset verbatim; the projections return exactly those three inputs, and
num_messages on the same value fails with the unknown-capability kind. -/
theorem unknown_new_verbatim (n : String) (v o : Nat) (h : n ≠ "eth") :
    SharedCapability.new n v o =
      Except.ok (SharedCapability.UnknownCapability n v o) ∧
    (SharedCapability.UnknownCapability n v o).name = n ∧
    (SharedCapability.UnknownCapability n v o).version = v ∧
    (SharedCapability.UnknownCapability n v o).offset = o ∧
    (SharedCapability.UnknownCapability n v o).num_messages =
      Except.error SharedCapabilityError.UnknownCapability := by
  refine ⟨?_, rfl, rfl, rfl, rfl⟩
  simp [SharedCapability.new, h]

/-- Witness for C2 at name "unknown-proto", version 1, offset 3. -/
theorem unknown_new_verbatim_witness :
    (("unknown-proto" : String) ≠ "eth") ∧
    (SharedCapability.new "unknown-proto" 1 3 =
      Except.ok (SharedCapability.UnknownCapability "unknown-proto" 1 3) ∧
    (SharedCapability.UnknownCapability "unknown-proto" 1 3).name =
      "unknown-proto" ∧
    (SharedCapability.UnknownCapability "unknown-proto" 1 3).version = 1 ∧
    (SharedCapability.UnknownCapability "unknown-proto" 1 3).offset = 3 ∧
    (SharedCapability.UnknownCapability "unknown-proto" 1 3).num_messages =
      Except.error SharedCapabilityError.UnknownCapability) :=
  ⟨by decide, unknown_new_verbatim "unknown-proto" 1 3 (by decide)⟩

/-- C3: num_messages on the Eth shape returns Ok with the fixed
message-count the static table associates with its validated version, and
num_messages on the unknown-capability shape fails with the
unknown-capability kind, for all carried names, versions and offsets. -/
theorem num_messages_by_shape :
    (∀ (ev : EthVersion) (o : Nat),
      (SharedCapability.Eth ev o).num_messages = Except.ok ev.total_messages) ∧
    (∀ (n : String) (v o : Nat),
      (SharedCapability.UnknownCapability n v o).num_messages =
        Except.error SharedCapabilityError.UnknownCapability) :=
  ⟨fun _ _ => rfl, fun _ _ _ => rfl⟩

/-- C4: Capabilities built from a sequence S returns S with order
preserved, the two derived flags equal the corresponding any-scans of S,
and the scanned predicates hold exactly on name "eth" with version 66
respectively 67. -/
theorem capabilities_from_derives_flags (S : List Capability) :
    (Capabilities.fromList S).capabilities = S ∧
    (Capabilities.fromList S).supports_eth_v66 = S.any Capability.is_eth_v66 ∧
    (Capabilities.fromList S).supports_eth_v67 = S.any Capability.is_eth_v67 ∧
    (∀ c : Capability, c.is_eth_v66 = true ↔ (c.name = "eth" ∧ c.version = 66)) ∧
    (∀ c : Capability, c.is_eth_v67 = true ↔ (c.name = "eth" ∧ c.version = 67)) := by
  refine ⟨rfl, rfl, rfl, ?_, ?_⟩ <;> intro c <;>
    simp [Capability.is_eth_v66, Capability.is_eth_v67]

/-- C5: decoding the byte buffer produced by encoding a Capabilities
value succeeds, consumes the whole buffer, and yields the value rebuilt
from the same capability sequence with the flags re-derived from the
decoded sequence; on every value whose flags agree with its sequence the
round trip is the identity. -/
theorem capabilities_codec_roundtrip (c : Capabilities) :
    Capabilities.decode (Capabilities.encode c) =
      some (Capabilities.fromList c.inner, []) ∧
    (Capabilities.fromList c.inner).inner = c.inner := by
  refine ⟨?_, rfl⟩
  have h := decCapList_encCapList c.inner []
  rw [List.append_nil] at h
  simp only [Capabilities.decode, Capabilities.encode, lebDec_lebEnc, h]
  rfl

/-- C6: SharedCapability::new with name "eth", version 67, offset 0
succeeds and equals the directly-constructed Eth shape for version 67 and
offset 0, with the projections returning "eth", 67 and 0; analogously for
version 66 with offset 5. -/
theorem eth_new_concrete_67_66 :
    SharedCapability.new "eth" 67 0 =
      Except.ok (SharedCapability.Eth EthVersion.Eth67 0) ∧
    (SharedCapability.Eth EthVersion.Eth67 0).name = "eth" ∧
    (SharedCapability.Eth EthVersion.Eth67 0).version = 67 ∧
    (SharedCapability.Eth EthVersion.Eth67 0).offset = 0 ∧
    SharedCapability.new "eth" 66 5 =
      Except.ok (SharedCapability.Eth EthVersion.Eth66 5) ∧
    (SharedCapability.Eth EthVersion.Eth66 5).name = "eth" ∧
    (SharedCapability.Eth EthVersion.Eth66 5).version = 66 ∧
    (SharedCapability.Eth EthVersion.Eth66 5).offset = 5 :=
  ⟨rfl, rfl, rfl, rfl, rfl, rfl, rfl, rfl⟩

/-- C7: the Capability/Capabilities component is total: construction is
pure and unvalidated, building from any sequence succeeds, and every
accessor is a pure projection of the constructed value. -/
theorem capability_component_total (n : String) (v : Nat) (S : List Capability) :
    Capability.new n v = { name := n, version := v } ∧
    (Capability.new n v).name = n ∧
    (Capability.new n v).version = v ∧
    (Capabilities.fromList S).capabilities = S ∧
    (Capabilities.fromList S).into_inner = S ∧
    (Capabilities.fromList S).supports_eth =
      ((Capabilities.fromList S).supports_eth_v67 ||
        (Capabilities.fromList S).supports_eth_v66) ∧
    (Capabilities.fromList S).supports_eth_v66 = S.any Capability.is_eth_v66 ∧
    (Capabilities.fromList S).supports_eth_v67 = S.any Capability.is_eth_v67 :=
  ⟨rfl, rfl, rfl, rfl, rfl, rfl, rfl, rfl⟩

/-- C8: a value returned by SharedCapability::new is the Eth shape if and
only if the name argument was "eth"; whenever the result projects name
"eth" the version byte was validated through the supported enumeration. -/
theorem new_eth_shape_iff (n : String) (v o : Nat) (sc : SharedCapability)
    (h : SharedCapability.new n v o = Except.ok sc) :
    ((∃ ev, sc = SharedCapability.Eth ev o) ↔ n = "eth") ∧
    (sc.name = "eth" →
      ∃ ev, EthVersion.tryFrom v = Except.ok ev ∧
        sc = SharedCapability.Eth ev o) := by
  unfold SharedCapability.new at h
  by_cases hn : n = "eth"
  · rw [if_pos hn] at h
    cases htf : EthVersion.tryFrom v with
    | ok ev =>
      rw [htf] at h
      simp only [Except.ok.injEq] at h
      subst h
      exact ⟨⟨fun _ => hn, fun _ => ⟨ev, rfl⟩⟩, fun _ => ⟨ev, rfl, rfl⟩⟩
    | error pe =>
      rw [htf] at h
      exact absurd h (by simp)
  · rw [if_neg hn] at h
    simp only [Except.ok.injEq] at h
    subst h
    refine ⟨⟨?_, fun hc => absurd hc hn⟩, ?_⟩
    · rintro ⟨ev, hev⟩
      simp at hev
    · intro hname
      simp only [SharedCapability.name] at hname
      exact absurd hname hn

/-- Witness for C8 at name "eth", version 67, offset 0. -/
theorem new_eth_shape_iff_witness :
    (∃ ev, SharedCapability.Eth EthVersion.Eth67 0 =
      SharedCapability.Eth ev 0) ↔ ("eth" : String) = "eth" :=
  (new_eth_shape_iff "eth" 67 0 (SharedCapability.Eth EthVersion.Eth67 0) rfl).1

/-- C9: the two error kinds are disjoint per operation: new never fails
with the UnknownCapability kind (every failure is UnsupportedVersion and
occurs only for name "eth"), and num_messages never fails with the
UnsupportedVersion kind. -/
theorem error_kinds_disjoint :
    (∀ (n : String) (v o : Nat),
      SharedCapability.new n v o ≠
        Except.error SharedCapabilityError.UnknownCapability) ∧
    (∀ (n : String) (v o : Nat) (e : SharedCapabilityError),
      SharedCapability.new n v o = Except.error e →
        n = "eth" ∧ ∃ pe, e = SharedCapabilityError.UnsupportedVersion pe) ∧
    (∀ (sc : SharedCapability) (pe : ParseVersionError),
      sc.num_messages ≠
        Except.error (SharedCapabilityError.UnsupportedVersion pe)) := by
  refine ⟨?_, ?_, ?_⟩
  · intro n v o hcontra
    unfold SharedCapability.new at hcontra
    split_ifs at hcontra with hn
    cases htf : EthVersion.tryFrom v with
    | ok ev => rw [htf] at hcontra; exact absurd hcontra (by simp)
    | error pe => rw [htf] at hcontra; simp at hcontra
  · intro n v o e he
    unfold SharedCapability.new at he
    split_ifs at he with hn
    cases htf : EthVersion.tryFrom v with
    | ok ev => rw [htf] at he; exact absurd he (by simp)
    | error pe =>
      rw [htf] at he
      simp only [Except.error.injEq] at he
      exact ⟨hn, pe, he.symm⟩
  · intro sc pe hcontra
    cases sc <;> simp [SharedCapability.num_messages] at hcontra

/-- C10: Capabilities built from a sequence S reports supports_eth
exactly when S contains an "eth" capability at version 66 or at version
67; an "eth" capability at any other version, such as 68, does not make
supports_eth true. -/
theorem supports_eth_iff (S : List Capability) :
    ((Capabilities.fromList S).supports_eth = true ↔
      ∃ c ∈ S, c.name = "eth" ∧ (c.version = 66 ∨ c.version = 67)) ∧
    (Capabilities.fromList [Capability.new "eth" 68]).supports_eth = false := by
  refine ⟨?_, rfl⟩
  rw [show (Capabilities.fromList S).supports_eth
      = (S.any Capability.is_eth_v67 || S.any Capability.is_eth_v66) from rfl]
  simp only [Bool.or_eq_true, List.any_eq_true, Capability.is_eth_v66,
    Capability.is_eth_v67, Bool.and_eq_true, beq_iff_eq]
  constructor
  · rintro (⟨c, hc, h1, h2⟩ | ⟨c, hc, h1, h2⟩)
    · exact ⟨c, hc, h1, Or.inr h2⟩
    · exact ⟨c, hc, h1, Or.inl h2⟩
  · rintro ⟨c, hc, h1, h2 | h2⟩
    · exact Or.inr ⟨c, hc, h1, h2⟩
    · exact Or.inl ⟨c, hc, h1, h2⟩
